import Mathlib

/-!
Verification development for the simplecoin RPC views module
(src/simplecoin/rpc_views.py).  The module implements the claim / commit /
reset coordination protocol between the ledger store and an external
settlement worker:

  * get_sell_requests   - claim pending exchange (sell) requests
  * update_sell_requests - commit completed exchange requests
  * reset_sell_requests  - release claimed exchange requests
  * get_final_payouts    - (vestigial) list of final payouts, always empty
  * get_payouts          - claim pending payouts
  * update_transactions  - commit payouts (success proof) or reset them
  * confirm_transactions - mark transactions network-confirmed

The database state is embedded as lists of rows; each HTTP handler becomes a
pure function from (decoded request payload, state) to (response-or-error,
state).  The enclosing database transaction of each handler is modelled by
the state transition being atomic: a handler that raises before its commit
returns the pre-state unchanged.  The signing envelope (TimedSerializer) is
outside the embedded core; handlers receive already-decoded payloads and
return payload values.
-/

set_option maxRecDepth 4000

namespace Simplecoin

/-- Dynamically typed wire values carried inside decoded request payloads,
mirroring the Python values the handlers inspect with isinstance and len. -/
inductive PyVal where
  | int (n : Int)
  | bool (b : Bool)
  | str (s : String)
  | none
  | list (xs : List PyVal)
  | dict (entries : List (PyVal × PyVal))
  deriving Repr, BEq

/-- Python isinstance(v, int).  A Python bool is a subclass of int, so bools
pass this check. -/
def isinstance_int : PyVal → Bool
  | .int _ => true
  | .bool _ => true
  | _ => false

/-- Python isinstance(v, bool). -/
def isinstance_bool : PyVal → Bool
  | .bool _ => true
  | _ => false

/-- Numeric value of an int-like Python value (True == 1, False == 0);
0 for values that are not int-like (never reached after validation). -/
def pyToInt : PyVal → Int
  | .int n => n
  | .bool b => if b then 1 else 0
  | _ => 0

/-- Python truthiness of a wire value. -/
def pyTruthy : PyVal → Bool
  | .int n => n != 0
  | .bool b => b
  | .str s => s != ""
  | .none => false
  | .list xs => !xs.isEmpty
  | .dict es => !es.isEmpty

/- ## Data model (rows of the ledger store)

Field names follow models.py as used from rpc_views.py. -/

/-- A payout row: owning user, amount, owning block, lock flag, optional
merge-group tag and optional link to the transaction that paid it. -/
structure Payout where
  id : Int
  user : String
  amount : Int
  block_id : Int
  locked : Bool
  merged_type : Option String
  transaction_id : Option String
  deriving DecidableEq, Repr

/-- A block row; only maturity is consulted by the RPC views. -/
structure Block where
  id : Int
  mature : Bool
  deriving DecidableEq, Repr

/-- A trade (sell/exchange) request row.  The status column is the integer
_status; 0 is the pending state selected by get_sell_requests and 4 the
terminal state written by update_sell_requests. -/
structure TradeRequest where
  id : Int
  currency : String
  quantity : Int
  _status : Int
  locked : Bool
  exchanged_quantity : Option Int
  deriving DecidableEq, Repr

/-- A transaction row keyed by the 64-character settlement-network txid. -/
structure Transaction where
  txid : String
  confirmed : Bool
  merged_type : Option String
  deriving DecidableEq, Repr

/-- A per-(transaction, user) aggregate row. -/
structure TransactionSummary where
  transaction_id : String
  user : String
  amount : Int
  count : Int
  deriving DecidableEq, Repr

/-- The ledger store: one list of rows per table. -/
structure DBState where
  payouts : List Payout
  blocks : List Block
  trade_requests : List TradeRequest
  transactions : List Transaction
  transaction_summaries : List TransactionSummary
  deriving DecidableEq, Repr

/-- Error outcome of a handler: abort(400) for validation failures, or an
unhandled Python exception (KeyError/TypeError/AttributeError) which the web
layer turns into a 500 response. -/
inductive RpcErr where
  | clientError
  | serverError
  deriving DecidableEq, Repr

/-- Successful response bodies the commit/confirm handlers produce:
s.dumps(True) or s.dumps(dict(success=True, result=...)). -/
inductive Resp where
  | boolTrue
  | successResult (result : String)
  deriving DecidableEq, Repr

/- ## get_sell_requests -/

/-- Row filter of the get_sell_requests query:
TradeRequest.query.filter_by(_status=0, locked=False). -/
def sellEligible (tr : TradeRequest) : Bool :=
  tr._status == 0 && !tr.locked

/-- Handler for POST /get_sell_requests.  The decoded args are modelled as
Option Bool: some lockFlag when the payload is a dict carrying the lock key,
none when it is not a dict (isinstance(args, dict) fails, so lock stays
False). -/
def get_sell_requests (args : Option Bool) (s : DBState) :
    (List (Int × String × Int) × Bool) × DBState :=
  let lock := match args with
    | some l => l
    | none => false
  let sell_requests := s.trade_requests.filter sellEligible
  let srs := sell_requests.map (fun sr => (sr.id, sr.currency, sr.quantity))
  let s1 :=
    if lock then
      { s with trade_requests :=
          s.trade_requests.map (fun sr =>
            if sellEligible sr then { sr with locked := true } else sr) }
    else s
  ((srs, lock), s1)

/- ## get_payouts -/

/-- Decoded args of get_payouts when the payload is a dict: the lock flag and
the merged tag (null or a string). -/
structure GetPayoutsArgs where
  lock : Bool
  merged : Option String
  deriving DecidableEq, Repr

/-- The merged local variable of get_payouts: None unless the args are a dict
whose merged entry is truthy (a non-empty string). -/
def effMerged : Option GetPayoutsArgs → Option String
  | Option.none => Option.none
  | some a =>
    match a.merged with
    | Option.none => Option.none
    | some t => if t = "" then Option.none else some t

/-- The lock local variable of get_payouts. -/
def effLock : Option GetPayoutsArgs → Bool
  | Option.none => false
  | some a => a.lock

/-- Join clause of the payout query: the payout's owning block exists and is
mature (join(Payout.block).filter_by(mature=True)). -/
def blockMature (s : DBState) (bid : Int) : Bool :=
  s.blocks.any (fun b => b.id == bid && b.mature)

/-- Row filter of the get_payouts query:
filter_by(transaction_id=None, locked=False, merged_type=merged) joined with
the mature-block condition. -/
def payoutEligible (s : DBState) (merged : Option String) (p : Payout) : Bool :=
  p.transaction_id == Option.none && !p.locked && p.merged_type == merged
    && blockMature s p.block_id

/-- Handler for POST /get_payouts.  Returns the (user, amount, id) triples of
eligible payouts and, when lock was requested and the set is non-empty, flips
locked on the rows whose ids were returned. -/
def get_payouts (args : Option GetPayoutsArgs) (s : DBState) :
    (List (String × Int × Int) × Bool) × DBState :=
  let lock := effLock args
  let merged := effMerged args
  let pids := (s.payouts.filter (payoutEligible s merged)).map
    (fun p => (p.user, p.amount, p.id))
  let s1 :=
    if lock then
      if !pids.isEmpty then
        { s with payouts :=
            s.payouts.map (fun p =>
              if pids.any (fun q => q.2.2 == p.id) then { p with locked := true }
              else p) }
      else s
    else s
  ((pids, lock), s1)

/- ## get_final_payouts -/

/-- Handler for GET /get_final_payouts.  The handler builds its row list from
the literal empty list final_payouts = [], so the comprehension yields [] and
the response payload is [[]]; no query and no write happen. -/
def get_final_payouts (_args : PyVal) (s : DBState) : PyVal × DBState :=
  let fps : List PyVal := []
  (PyVal.list [PyVal.list fps], s)

/- ## update_sell_requests -/

/-- Decoded payload of update_sell_requests.  Each field is None when the key
is absent from the request dict.  The update key is read unvalidated by
data[update-key] after the assertions pass. -/
structure UpdateSellData where
  completed_srs : Option PyVal
  update : Option PyVal
  deriving Repr

/-- Handler for POST /update_sell_requests.  Validates that completed_srs is
present, is a dict, and has int keys and values (abort(400) otherwise); then,
when data[update-key] is truthy and the dict non-empty, it enters the update
loop.  The first loop iteration evaluates
TradeRequest.query.filter(TradeRequest), handing the mapped class itself to
Query.filter, which raises ArgumentError (a mapped class is not a SQL
expression) before any row lookup or attribute write; the exception is not
caught and commit never runs, so the web layer returns a server error with
the store untouched.  The success return after the loop is unreachable for
every non-empty map. -/
def update_sell_requests (d : UpdateSellData) (s : DBState) :
    Except RpcErr Resp × DBState :=
  match d.completed_srs with
  | Option.none => (.error .clientError, s)
  | some v =>
    match v with
    | .dict entries =>
      if entries.all (fun e => isinstance_int e.1 && isinstance_int e.2) then
        match d.update with
        | Option.none => (.error .serverError, s)
        | some u =>
          if pyTruthy u && !entries.isEmpty then
            (.error .serverError, s)
          else (.ok .boolTrue, s)
      else (.error .clientError, s)
    | _ => (.error .clientError, s)

/- ## update_transactions (POST /update_payouts) -/

/-- Decoded payload of update_transactions.  coin_txid, when present, is the
proof string; merged is data.get(merged-key, None); pids and bids are the raw
wire values whose shape the handler validates. -/
structure UpdateTransactionsData where
  coin_txid : Option String
  reset : Option PyVal
  merged : Option String
  pids : Option PyVal
  bids : Option PyVal
  deriving Repr

/-- Parsed outcome of the update_transactions input validation: success path
with the proof and the two integer id lists, or reset path with the reset
flag. -/
inductive UTParsed where
  | success (proof : String) (pidsL bidsL : List Int)
  | reset (flag : Bool) (pidsL bidsL : List Int)
  deriving Repr

/-- Head of the validation block: with coin_txid present its length must be
64, otherwise the reset key must be present and a bool; assertion failures
abort(400). -/
def validateHead (d : UpdateTransactionsData) : Except RpcErr Unit :=
  match d.coin_txid with
  | some p => if p.length = 64 then .ok () else .error .clientError
  | Option.none =>
    match d.reset with
    | some r => if isinstance_bool r then .ok () else .error .clientError
    | Option.none => .error .clientError

/-- Lookup plus isinstance(_, list) check of one id-list key: a missing key
raises KeyError (500), a non-list value fails the assertion (400). -/
def validateIdList (v : Option PyVal) : Except RpcErr (List PyVal) :=
  match v with
  | Option.none => .error .serverError
  | some (.list xs) => .ok xs
  | some _ => .error .clientError

/-- Reset flag value once validated: the bool carried under the reset key. -/
def resetFlag (d : UpdateTransactionsData) : Bool :=
  match d.reset with
  | some (.bool b) => b
  | _ => false

/-- Full input validation of update_transactions, in source order: head
checks, lookup and list-shape of pids then bids, then per-entry int checks of
pids then bids. -/
def validateUT (d : UpdateTransactionsData) : Except RpcErr UTParsed :=
  match validateHead d with
  | .error e => .error e
  | .ok () =>
    match validateIdList d.pids with
    | .error e => .error e
    | .ok pxs =>
      match validateIdList d.bids with
      | .error e => .error e
      | .ok bxs =>
        if pxs.all isinstance_int then
          if bxs.all isinstance_int then
            match d.coin_txid with
            | some p => .ok (.success p (pxs.map pyToInt) (bxs.map pyToInt))
            | Option.none =>
              .ok (.reset (resetFlag d) (pxs.map pyToInt) (bxs.map pyToInt))
          else .error .clientError
        else .error .clientError

/-- Modelled from the spec: Transaction.create lives in models.py, which is
not part of the sources here.  Per the spec it is an idempotent create keyed
by the proof reference: if a Transaction with that txid already exists it is
reused rather than duplicated, otherwise a fresh unconfirmed row is added. -/
def Transaction.create (txid : String) (merged_type : Option String)
    (ts : List Transaction) : List Transaction :=
  if ts.any (fun t => t.txid == txid) then ts
  else ts ++ [{ txid := txid, confirmed := false, merged_type := merged_type }]

/-- Modelled from the spec: TransactionSummary.create lives in models.py,
which is not part of the sources here.  Per the spec a summary is one
write-once row per (transaction, user) pair, so create adds the row only when
that pair is not yet present. -/
def TransactionSummary.create (txid user : String) (amount : Int) (count : Int)
    (rows : List TransactionSummary) : List TransactionSummary :=
  if rows.any (fun r => r.transaction_id == txid && r.user == user) then rows
  else rows ++ [{ transaction_id := txid, user := user, amount := amount,
                  count := count }]

/-- One step of the user_amounts/user_counts dict building: setdefault to
(0, 0) then add the payout amount and bump the count, preserving first-seen
key order of the dict. -/
def bumpUser (u : String) (amt : Int) :
    List (String × Int × Int) → List (String × Int × Int)
  | [] => [(u, amt, 1)]
  | (v, a, c) :: rest =>
    if v = u then (v, a + amt, c + 1) :: rest
    else (v, a, c) :: bumpUser u amt rest

/-- The per-user aggregation loop of the success path over the referenced
payouts: entries are (user, total amount, item count). -/
def aggregate (ps : List Payout) : List (String × Int × Int) :=
  ps.foldl (fun acc p => bumpUser p.user p.amount acc) []

/-- The TransactionSummary.create loop over the aggregated entries. -/
def sumFold (proof : String) (agg : List (String × Int × Int))
    (rows : List TransactionSummary) : List TransactionSummary :=
  agg.foldl (fun acc e => TransactionSummary.create proof e.1 e.2.1 e.2.2 acc)
    rows

/-- Per-payout effect of the success-path linking update: payouts whose id is
in the pids list get transaction_id set to the proof. -/
def linkRow (pidsL : List Int) (proof : String) (p : Payout) : Payout :=
  if pidsL.contains p.id then { p with transaction_id := some proof } else p

/-- Success path of update_transactions: create the Transaction for the
proof, write one TransactionSummary per aggregated user, and link every
referenced payout to the proof txid; all in the one committed transaction. -/
def txSuccessPath (proof : String) (merged : Option String) (pidsL : List Int)
    (s : DBState) : DBState :=
  let transactions1 := Transaction.create proof merged s.transactions
  let referenced := s.payouts.filter (fun p => pidsL.contains p.id)
  let summaries1 := sumFold proof (aggregate referenced) s.transaction_summaries
  let payouts1 :=
    if !pidsL.isEmpty then s.payouts.map (linkRow pidsL proof)
    else s.payouts
  { s with transactions := transactions1, transaction_summaries := summaries1,
           payouts := payouts1 }

/-- Summary row written for one aggregation entry. -/
def mkSummaryRow (proof : String) (e : String × Int × Int) :
    TransactionSummary :=
  { transaction_id := proof, user := e.1, amount := e.2.1, count := e.2.2 }

/-- Lookup of a user key in the aggregation assoc list. -/
def lookupUser (u : String) : List (String × Int × Int) → Option (Int × Int)
  | [] => Option.none
  | (v, a, c) :: rest => if v = u then some (a, c) else lookupUser u rest

/-- The aggregation fold started from an arbitrary accumulator; aggregate ps
is aggFrom [] ps. -/
def aggFrom (acc : List (String × Int × Int)) (ps : List Payout) :
    List (String × Int × Int) :=
  ps.foldl (fun acc p => bumpUser p.user p.amount acc) acc

/-- Key list of the aggregation assoc list. -/
def aggKeys (l : List (String × Int × Int)) : List String := l.map Prod.fst

/-- Total aggregated amount of an aggregation assoc list. -/
def totalAmount (l : List (String × Int × Int)) : Int :=
  (l.map (fun e => e.2.1)).sum

/-- Specification-side per-user amount: the sum of the amounts of a user's
payouts in a row list. -/
def userAmounts (ps : List Payout) (u : String) : Int :=
  ((ps.filter (fun p => p.user == u)).map Payout.amount).sum

/-- Specification-side per-user count of payouts in a row list. -/
def userCounts (ps : List Payout) (u : String) : Int :=
  ((ps.filter (fun p => p.user == u)).length : Int)

/-- Reset path of update_transactions: clear locked on the payouts whose ids
are in pids.  The bids list is validated but no update uses it. -/
def txResetPath (pidsL : List Int) (s : DBState) : DBState :=
  if !pidsL.isEmpty then
    { s with payouts :=
        s.payouts.map (fun p =>
          if pidsL.contains p.id then { p with locked := false } else p) }
  else s

/-- Handler for POST /update_payouts.  After validation, the success path
runs when coin_txid is present and returns s.dumps(True); the reset path runs
when the reset flag is true and returns the success dict; otherwise nothing
happens and s.dumps(True) is returned. -/
def update_transactions (d : UpdateTransactionsData) (s : DBState) :
    Except RpcErr Resp × DBState :=
  match validateUT d with
  | .error e => (.error e, s)
  | .ok (.success proof pidsL _bidsL) =>
    (.ok .boolTrue, txSuccessPath proof d.merged pidsL s)
  | .ok (.reset flag pidsL _bidsL) =>
    if flag then (.ok (.successResult "Successfully reset"), txResetPath pidsL s)
    else (.ok .boolTrue, s)

/- ## confirm_transactions -/

/-- Decoded payload of confirm_transactions.  The handler reads only the tids
key; the txids field records whether the payload carried that other key (the
handler never looks at it). -/
structure ConfirmData where
  tids : Option PyVal
  txids : Option PyVal
  deriving Repr

/-- Membership test of a transaction id in the wire list, as the SQL in_
comparison sees it: only an equal string matches. -/
def pyValIsStr (v : PyVal) (s : String) : Bool :=
  match v with
  | .str t => t == s
  | _ => false

/-- Row effect of the confirm update: a transaction whose txid is in the wire
list gets confirmed = True, any other row is untouched. -/
def confirmRow (xs : List PyVal) (t : Transaction) : Transaction :=
  if xs.any (fun v => pyValIsStr v t.txid) then { t with confirmed := true }
  else t

/-- Handler for POST /confirm_transactions.  A missing tids key raises
KeyError (500); a non-list tids fails the assertion (400); otherwise every
transaction whose txid is in the list gets confirmed = True. -/
def confirm_transactions (d : ConfirmData) (s : DBState) :
    Except RpcErr Resp × DBState :=
  match d.tids with
  | Option.none => (.error .serverError, s)
  | some (.list xs) =>
    (.ok .boolTrue, { s with transactions := s.transactions.map (confirmRow xs) })
  | some _ => (.error .clientError, s)

/- ## Shared helper definitions and lemmas -/

/-- Equality of every payout column except locked. -/
def Payout.sameCore (p q : Payout) : Prop :=
  p.id = q.id ∧ p.user = q.user ∧ p.amount = q.amount ∧ p.block_id = q.block_id
    ∧ p.merged_type = q.merged_type ∧ p.transaction_id = q.transaction_id

/-- Equality of every trade-request column except locked. -/
def TradeRequest.sameCore (t u : TradeRequest) : Prop :=
  t.id = u.id ∧ t.currency = u.currency ∧ t.quantity = u.quantity
    ∧ t._status = u._status ∧ t.exchanged_quantity = u.exchanged_quantity

theorem sameCore_refl (p : Payout) : Payout.sameCore p p :=
  ⟨rfl, rfl, rfl, rfl, rfl, rfl⟩

theorem trSameCore_refl (t : TradeRequest) : TradeRequest.sameCore t t :=
  ⟨rfl, rfl, rfl, rfl, rfl⟩

theorem map_int_all_isinstance (l : List Int) :
    (l.map PyVal.int).all isinstance_int = true := by
  induction l with
  | nil => rfl
  | cons x xs ih => simp [List.all_cons, isinstance_int, ih]

theorem map_pyToInt_map_int (l : List Int) :
    (l.map PyVal.int).map pyToInt = l := by
  induction l with
  | nil => rfl
  | cons x xs ih => simp [pyToInt, ih]

theorem map_pyToInt_comp_int (l : List Int) :
    l.map (pyToInt ∘ PyVal.int) = l := by
  induction l with
  | nil => rfl
  | cons x xs ih => simp [pyToInt, Function.comp, ih]

theorem get_payouts_snd (args : Option GetPayoutsArgs) (s : DBState) :
    (get_payouts args s).2 =
      if effLock args then
        if !((get_payouts args s).1.1).isEmpty then
          { s with payouts := s.payouts.map (fun p =>
              if ((get_payouts args s).1.1).any (fun q => q.2.2 == p.id)
              then { p with locked := true } else p) }
        else s
      else s := rfl

/- ## Claim theorems -/

/-- C10: get_final_payouts returns the payload [[]] (one empty list inside a
list) and leaves the state untouched, for every request argument. -/
theorem get_final_payouts_always_empty (args : PyVal) (s : DBState) :
    get_final_payouts args s = (PyVal.list [PyVal.list []], s) := rfl

/-- C4: every (user, amount, id) triple returned by get_payouts comes from a
payout row with no transaction link, locked false, merged_type equal to the
requested merged tag, and a mature owning block; and a payout under an
immature block is never returned (payout ids being unique as primary keys). -/
theorem get_payouts_eligibility (args : Option GetPayoutsArgs) (s : DBState)
    (hNodup : (s.payouts.map Payout.id).Nodup) :
    (∀ e ∈ (get_payouts args s).1.1,
       ∃ p, p ∈ s.payouts ∧ (p.user, p.amount, p.id) = e ∧
         p.transaction_id = Option.none ∧ p.locked = false ∧
         p.merged_type = effMerged args ∧ blockMature s p.block_id = true) ∧
    (∀ p ∈ s.payouts, blockMature s p.block_id = false →
       (p.user, p.amount, p.id) ∉ (get_payouts args s).1.1) := by
  have hres : (get_payouts args s).1.1
      = (s.payouts.filter (payoutEligible s (effMerged args))).map
          (fun p => (p.user, p.amount, p.id)) := rfl
  constructor
  · intro e he
    rw [hres] at he
    obtain ⟨p, hp, hpe⟩ := List.mem_map.mp he
    obtain ⟨hmem, helig⟩ := List.mem_filter.mp hp
    unfold payoutEligible at helig
    simp only [Bool.and_eq_true, beq_iff_eq, Bool.not_eq_true'] at helig
    exact ⟨p, hmem, hpe, helig.1.1.1, helig.1.1.2, helig.1.2, helig.2⟩
  · intro p hp hmat he
    rw [hres] at he
    obtain ⟨q, hq, hqe⟩ := List.mem_map.mp he
    obtain ⟨hqmem, hqelig⟩ := List.mem_filter.mp hq
    have hid : q.id = p.id := congrArg (fun t => t.2.2) hqe
    have hqp : q = p := List.inj_on_of_nodup_map hNodup hqmem hp hid
    subst hqp
    unfold payoutEligible at hqelig
    simp only [Bool.and_eq_true, beq_iff_eq, Bool.not_eq_true'] at hqelig
    rw [hqelig.2] at hmat
    exact Bool.noConfusion hmat

/-- C3: when a claim call requests the lock, every returned item is locked in
the committed state (payouts by returned id, sell requests as the lock-flipped
row), and an empty returned set leaves the state unchanged. -/
theorem claim_wantLock_locks_returned :
    (∀ (a : GetPayoutsArgs) (s : DBState), a.lock = true →
       (∀ e ∈ (get_payouts (some a) s).1.1,
          ∀ p ∈ ((get_payouts (some a) s).2).payouts,
            p.id = e.2.2 → p.locked = true) ∧
       ((get_payouts (some a) s).1.1 = [] → (get_payouts (some a) s).2 = s)) ∧
    (∀ s : DBState,
       (∀ tr ∈ s.trade_requests, sellEligible tr = true →
          { tr with locked := true }
            ∈ ((get_sell_requests (some true) s).2).trade_requests) ∧
       ((get_sell_requests (some true) s).1.1 = []
          → (get_sell_requests (some true) s).2 = s)) := by
  constructor
  · intro a s hlock
    have hlock1 : effLock (some a) = true := hlock
    constructor
    · intro e he p hpost hpid
      have hne : ((get_payouts (some a) s).1.1).isEmpty = false := by
        rw [List.isEmpty_eq_false]
        intro hnil
        rw [hnil] at he
        exact List.not_mem_nil e he
      have hpost2 : ((get_payouts (some a) s).2).payouts
          = s.payouts.map (fun p =>
              if ((get_payouts (some a) s).1.1).any (fun q => q.2.2 == p.id)
              then { p with locked := true } else p) := by
        rw [get_payouts_snd, hlock1, hne]
        rfl
      rw [hpost2] at hpost
      obtain ⟨q, _, hq⟩ := List.mem_map.mp hpost
      by_cases hc : ((get_payouts (some a) s).1.1).any (fun r => r.2.2 == q.id) = true
      · rw [if_pos hc] at hq
        rw [← hq]
      · rw [if_neg hc] at hq
        exfalso
        apply hc
        rw [List.any_eq_true]
        refine ⟨e, he, ?_⟩
        rw [← hq] at hpid
        exact beq_iff_eq.mpr hpid.symm
    · intro hnil
      rw [get_payouts_snd, hlock1, hnil]
      rfl
  · intro s
    have hpost : ((get_sell_requests (some true) s).2).trade_requests
        = s.trade_requests.map (fun sr =>
            if sellEligible sr then { sr with locked := true } else sr) := rfl
    constructor
    · intro tr htr helig
      rw [hpost]
      refine List.mem_map.mpr ⟨tr, htr, ?_⟩
      simp [helig]
    · intro hnil
      have hfil : s.trade_requests.filter sellEligible = [] := by
        have : (get_sell_requests (some true) s).1.1
            = (s.trade_requests.filter sellEligible).map
                (fun sr => (sr.id, sr.currency, sr.quantity)) := rfl
        rw [this] at hnil
        exact List.map_eq_nil_iff.mp hnil
      have hnoelig : ∀ tr ∈ s.trade_requests, ¬ sellEligible tr :=
        List.filter_eq_nil_iff.mp hfil
      have hmapid : s.trade_requests.map (fun sr =>
          if sellEligible sr then { sr with locked := true } else sr)
          = s.trade_requests := by
        have h1 : s.trade_requests.map (fun sr =>
            if sellEligible sr then { sr with locked := true } else sr)
            = s.trade_requests.map id :=
          List.map_congr_left (fun a ha => by
            rw [if_neg (by simpa using hnoelig a ha)]
            rfl)
        rw [h1, List.map_id]
      have hgoal : (get_sell_requests (some true) s).2
          = { s with trade_requests := s.trade_requests.map (fun sr =>
              if sellEligible sr then { sr with locked := true } else sr) } := rfl
      rw [hgoal, hmapid]

/-- C9: a claim call changes no column but locked: both claim handlers leave
every other table identical, keep the payout / trade-request lists pointwise
equal on all non-lock columns, and flip a locked flag only on a returned item
and only to true when the lock was requested. -/
theorem claim_frame_only_locked :
    (∀ (args : Option GetPayoutsArgs) (s : DBState),
       ((get_payouts args s).2).blocks = s.blocks ∧
       ((get_payouts args s).2).trade_requests = s.trade_requests ∧
       ((get_payouts args s).2).transactions = s.transactions ∧
       ((get_payouts args s).2).transaction_summaries = s.transaction_summaries ∧
       List.Forall₂ (fun p q => Payout.sameCore p q ∧
           (p.locked ≠ q.locked → effLock args = true ∧
             q.id ∈ ((get_payouts args s).1.1).map (fun e => e.2.2) ∧
             p.locked = true))
         ((get_payouts args s).2).payouts s.payouts) ∧
    (∀ (args : Option Bool) (s : DBState),
       ((get_sell_requests args s).2).blocks = s.blocks ∧
       ((get_sell_requests args s).2).payouts = s.payouts ∧
       ((get_sell_requests args s).2).transactions = s.transactions ∧
       ((get_sell_requests args s).2).transaction_summaries
         = s.transaction_summaries ∧
       List.Forall₂ (fun t u => TradeRequest.sameCore t u ∧
           (t.locked ≠ u.locked → args = some true ∧
             (u.id, u.currency, u.quantity) ∈ (get_sell_requests args s).1.1 ∧
             t.locked = true))
         ((get_sell_requests args s).2).trade_requests s.trade_requests) := by
  constructor
  · intro args s
    by_cases hl : effLock args = true
    · by_cases hne : ((get_payouts args s).1.1).isEmpty = true
      · have hpost : (get_payouts args s).2 = s := by
          rw [get_payouts_snd, hl, hne]
          rfl
        rw [hpost]
        refine ⟨rfl, rfl, rfl, rfl, ?_⟩
        rw [List.forall₂_same]
        intro p _
        exact ⟨sameCore_refl p, fun h => absurd rfl h⟩
      · have hne2 : ((get_payouts args s).1.1).isEmpty = false :=
          Bool.not_eq_true _ ▸ hne
        have hpost : (get_payouts args s).2
            = { s with payouts := s.payouts.map (fun p =>
                if ((get_payouts args s).1.1).any (fun q => q.2.2 == p.id)
                then { p with locked := true } else p) } := by
          rw [get_payouts_snd, hl, hne2]
          rfl
        rw [hpost]
        refine ⟨rfl, rfl, rfl, rfl, ?_⟩
        rw [List.forall₂_map_left_iff, List.forall₂_same]
        intro p _
        by_cases hc : ((get_payouts args s).1.1).any (fun q => q.2.2 == p.id)
          = true

        · rw [if_pos hc]
          refine ⟨⟨rfl, rfl, rfl, rfl, rfl, rfl⟩, fun _ => ⟨hl, ?_, rfl⟩⟩
          obtain ⟨e, he, hee⟩ := List.any_eq_true.mp hc
          exact List.mem_map.mpr ⟨e, he, beq_iff_eq.mp hee⟩
        · rw [if_neg hc]
          exact ⟨sameCore_refl p, fun h => absurd rfl h⟩
    · have hpost : (get_payouts args s).2 = s := by
        rw [get_payouts_snd]
        rw [Bool.not_eq_true] at hl
        rw [hl]
        rfl
      rw [hpost]
      refine ⟨rfl, rfl, rfl, rfl, ?_⟩
      rw [List.forall₂_same]
      intro p _
      exact ⟨sameCore_refl p, fun h => absurd rfl h⟩
  · intro args s
    match args with
    | some true =>
      have hpost : (get_sell_requests (some true) s).2
          = { s with trade_requests := s.trade_requests.map (fun sr =>
              if sellEligible sr then { sr with locked := true } else sr) } := rfl
      rw [hpost]
      refine ⟨rfl, rfl, rfl, rfl, ?_⟩
      rw [List.forall₂_map_left_iff, List.forall₂_same]
      intro tr htr
      by_cases hc : sellEligible tr = true
      · rw [if_pos hc]
        refine ⟨⟨rfl, rfl, rfl, rfl, rfl⟩, fun _ => ⟨rfl, ?_, rfl⟩⟩
        have hfil : tr ∈ s.trade_requests.filter sellEligible :=
          List.mem_filter.mpr ⟨htr, hc⟩
        exact List.mem_map.mpr ⟨tr, hfil, rfl⟩
      · rw [if_neg hc]
        exact ⟨trSameCore_refl tr, fun h => absurd rfl h⟩
    | some false =>
      have hpost : (get_sell_requests (some false) s).2 = s := rfl
      rw [hpost]
      refine ⟨rfl, rfl, rfl, rfl, ?_⟩
      rw [List.forall₂_same]
      intro tr _
      exact ⟨trSameCore_refl tr, fun h => absurd rfl h⟩
    | Option.none =>
      have hpost : (get_sell_requests Option.none s).2 = s := rfl
      rw [hpost]
      refine ⟨rfl, rfl, rfl, rfl, ?_⟩
      rw [List.forall₂_same]
      intro tr _
      exact ⟨trSameCore_refl tr, fun h => absurd rfl h⟩

theorem validateHead_ok_or_client (d : UpdateTransactionsData) :
    validateHead d = .ok () ∨ validateHead d = .error .clientError := by
  obtain ⟨ct, rs, mg, pd, bd⟩ := d
  cases ct with
  | some p =>
    by_cases h : p.length = 64
    · left
      simp [validateHead, h]
    · right
      simp [validateHead, h]
  | none =>
    cases rs with
    | some r => cases r <;> simp [validateHead, isinstance_bool]
    | none => right; rfl

/-- C6: a commit-payouts request carrying both id lists but with a
non-integer entry in pids or in bids, or carrying a proof whose length is not
64, is rejected with abort(400) and the handler returns the state unchanged:
no Transaction, TransactionSummary, Payout link or lock change happens. -/
theorem update_transactions_rejects_malformed (d : UpdateTransactionsData)
    (s : DBState) (pxs bxs : List PyVal)
    (hp : d.pids = some (.list pxs)) (hb : d.bids = some (.list bxs)) :
    (((∃ x ∈ pxs, isinstance_int x = false)
        ∨ (∃ x ∈ bxs, isinstance_int x = false)) →
       update_transactions d s = (.error .clientError, s)) ∧
    (∀ proof, d.coin_txid = some proof → proof.length ≠ 64 →
       update_transactions d s = (.error .clientError, s)) := by
  have hids : validateIdList d.pids = .ok pxs := by rw [hp]; rfl
  have hids2 : validateIdList d.bids = .ok bxs := by rw [hb]; rfl
  constructor
  · intro hbad
    rcases validateHead_ok_or_client d with hok | herr
    · by_cases hall : pxs.all isinstance_int = true
      · have hbb : bxs.all isinstance_int = false := by
          rcases hbad with ⟨x, hx, hxf⟩ | ⟨x, hx, hxf⟩
          · have := List.all_eq_true.mp hall x hx
            rw [hxf] at this
            exact Bool.noConfusion this
          · rw [List.all_eq_false]
            exact ⟨x, hx, by rw [hxf]; exact Bool.noConfusion⟩
        unfold update_transactions validateUT
        simp only [hok, hids, hids2, hall, hbb]
        simp
      · have hpp : pxs.all isinstance_int = false :=
          Bool.not_eq_true _ ▸ hall
        unfold update_transactions validateUT
        simp only [hok, hids, hids2, hpp]
        simp
    · unfold update_transactions validateUT
      simp only [herr]
  · intro proof hcoin hlen
    unfold update_transactions validateUT validateHead
    simp [hcoin, hlen]

/-- C2 counterexample: a reset-path commit whose bids list references the one
locked payout leaves that payout locked, because the handler never touches
the bids list; so the claim that locked is cleared on every item referenced
in both id lists fails. -/
theorem update_transactions_reset_ignores_bids_cex :
    (update_transactions
        { coin_txid := Option.none, reset := some (.bool true),
          merged := Option.none, pids := some (.list []),
          bids := some (.list [.int 7]) }
        { payouts := [{ id := 7, user := "a", amount := 1, block_id := 0,
                        locked := true, merged_type := Option.none,
                        transaction_id := Option.none }],
          blocks := [], trade_requests := [], transactions := [],
          transaction_summaries := [] }).2
      = { payouts := [{ id := 7, user := "a", amount := 1, block_id := 0,
                        locked := true, merged_type := Option.none,
                        transaction_id := Option.none }],
          blocks := [], trade_requests := [], transactions := [],
          transaction_summaries := [] } := by
  rfl

/-- C2 amended: the reset path clears locked exactly on the payouts whose ids
are in pids and returns the success response; the ids in bids are validated
but not acted on, and no status column, Transaction link or other table is
modified. -/
theorem update_transactions_reset_amended (pl bl : List Int)
    (merged : Option String) (s : DBState) :
    update_transactions
        { coin_txid := Option.none, reset := some (.bool true),
          merged := merged, pids := some (.list (pl.map PyVal.int)),
          bids := some (.list (bl.map PyVal.int)) } s
      = (.ok (.successResult "Successfully reset"), txResetPath pl s) ∧
    (txResetPath pl s).blocks = s.blocks ∧
    (txResetPath pl s).trade_requests = s.trade_requests ∧
    (txResetPath pl s).transactions = s.transactions ∧
    (txResetPath pl s).transaction_summaries = s.transaction_summaries ∧
    List.Forall₂ (fun p q => Payout.sameCore p q ∧
        p.locked = (if pl.contains q.id then false else q.locked))
      (txResetPath pl s).payouts s.payouts := by
  refine ⟨?_, ?_⟩
  · unfold update_transactions validateUT validateHead validateIdList resetFlag
    simp [map_int_all_isinstance, map_pyToInt_map_int, map_pyToInt_comp_int,
      isinstance_bool]
  · unfold txResetPath
    by_cases hemp : pl.isEmpty = true
    · rw [hemp]
      have hnil : pl = [] := List.isEmpty_eq_true.mp hemp
      refine ⟨rfl, rfl, rfl, rfl, ?_⟩
      show List.Forall₂ _ s.payouts s.payouts
      rw [List.forall₂_same]
      intro p _
      subst hnil
      exact ⟨sameCore_refl p, by simp⟩
    · have hemp2 : pl.isEmpty = false := Bool.not_eq_true _ ▸ hemp
      rw [hemp2]
      refine ⟨rfl, rfl, rfl, rfl, ?_⟩
      show List.Forall₂ _ (s.payouts.map _) s.payouts
      rw [List.forall₂_map_left_iff, List.forall₂_same]
      intro p _
      by_cases hc : pl.contains p.id = true
      · rw [if_pos hc]
        exact ⟨⟨rfl, rfl, rfl, rfl, rfl, rfl⟩, by rw [hc]; rfl⟩
      · rw [if_neg hc]
        have hc2 : pl.contains p.id = false := Bool.not_eq_true _ ▸ hc
        exact ⟨sameCore_refl p, by rw [hc2]; rfl⟩

/-- C8 counterexample: a confirm request carrying the identifier list under
the txids key raises KeyError (the handler reads the tids key), so the
matching unconfirmed transaction is not confirmed and no success response is
returned. -/
theorem confirm_transactions_txids_key_cex :
    confirm_transactions
        { tids := Option.none, txids := some (.list [.str "t1"]) }
        { payouts := [], blocks := [], trade_requests := [],
          transactions := [{ txid := "t1", confirmed := false,
                             merged_type := Option.none }],
          transaction_summaries := [] }
      = (.error .serverError,
         { payouts := [], blocks := [], trade_requests := [],
           transactions := [{ txid := "t1", confirmed := false,
                              merged_type := Option.none }],
           transaction_summaries := [] }) := by
  rfl

/-- C8 amended: with the identifier list carried under the tids key the
handler returns true, sets confirmed on exactly the transactions whose txid
is in the list (a string-equal entry), leaves every other transaction and
every other table unchanged, and is idempotent: repeating the call does not
change the state again. -/
theorem confirm_transactions_tids (xs : List PyVal) (txidsF : Option PyVal)
    (s : DBState) :
    (confirm_transactions { tids := some (.list xs), txids := txidsF } s).1
      = .ok .boolTrue ∧
    ((confirm_transactions { tids := some (.list xs), txids := txidsF } s).2).payouts
      = s.payouts ∧
    ((confirm_transactions { tids := some (.list xs), txids := txidsF } s).2).blocks
      = s.blocks ∧
    ((confirm_transactions { tids := some (.list xs), txids := txidsF } s).2).trade_requests
      = s.trade_requests ∧
    ((confirm_transactions { tids := some (.list xs), txids := txidsF } s).2).transaction_summaries
      = s.transaction_summaries ∧
    List.Forall₂ (fun t u => t.txid = u.txid ∧ t.merged_type = u.merged_type ∧
        t.confirmed = (if xs.any (fun v => pyValIsStr v u.txid) then true
                       else u.confirmed))
      ((confirm_transactions { tids := some (.list xs), txids := txidsF } s).2).transactions
      s.transactions ∧
    confirm_transactions { tids := some (.list xs), txids := txidsF }
        ((confirm_transactions { tids := some (.list xs), txids := txidsF } s).2)
      = (.ok .boolTrue,
         (confirm_transactions { tids := some (.list xs), txids := txidsF } s).2) := by
  have hpost : (confirm_transactions { tids := some (.list xs), txids := txidsF } s).2
      = { s with transactions := s.transactions.map (confirmRow xs) } := rfl
  refine ⟨rfl, rfl, rfl, rfl, rfl, ?_, ?_⟩
  · rw [hpost]
    show List.Forall₂ _ (s.transactions.map _) s.transactions
    rw [List.forall₂_map_left_iff, List.forall₂_same]
    intro t _
    by_cases hc : xs.any (fun v => pyValIsStr v t.txid) = true <;>
      simp [confirmRow, hc]
  · rw [hpost]
    have hidem : (s.transactions.map (confirmRow xs)).map (confirmRow xs)
        = s.transactions.map (confirmRow xs) := by
      rw [List.map_map]
      apply List.map_congr_left
      intro t _
      show confirmRow xs (confirmRow xs t) = confirmRow xs t
      unfold confirmRow
      by_cases hc : xs.any (fun v => pyValIsStr v t.txid) = true
      · rw [if_pos hc]
        dsimp only
        rw [if_pos hc]
      · rw [if_neg hc, if_neg hc]
    have h2 : confirm_transactions { tids := some (.list xs), txids := txidsF }
        { s with transactions := s.transactions.map (confirmRow xs) }
        = (Except.ok Resp.boolTrue,
           { s with transactions :=
               (s.transactions.map (confirmRow xs)).map (confirmRow xs) }) := rfl
    rw [h2, hidem]

/-- C7: the commit-exchange-requests success path is unreachable in the code:
with update true and a non-empty integer completed map, and a matching
ExchangeRequest row present in the store, the first loop iteration raises
(Query.filter is handed the mapped class TradeRequest itself, an
ArgumentError) before any lookup or write, so the handler returns a server
error with the store untouched instead of setting the exchanged quantity and
completed status and returning the documented success response. -/
theorem update_sell_requests_always_errors :
    update_sell_requests
        { completed_srs := some (.dict [(.int 1, .int 5)]),
          update := some (.bool true) }
        { payouts := [], blocks := [],
          trade_requests :=
            [{ id := 1, currency := "LTC", quantity := 9, _status := 0,
               locked := true, exchanged_quantity := Option.none }],
          transactions := [], transaction_summaries := [] }
      = (.error .serverError,
         { payouts := [], blocks := [],
           trade_requests :=
             [{ id := 1, currency := "LTC", quantity := 9, _status := 0,
                locked := true, exchanged_quantity := Option.none }],
           transactions := [], transaction_summaries := [] }) := rfl

/- ## Aggregation lemmas for the commit success path -/

theorem lookupUser_bumpUser_same (u : String) (amt : Int)
    (acc : List (String × Int × Int)) :
    lookupUser u (bumpUser u amt acc)
      = match lookupUser u acc with
        | Option.none => some (amt, 1)
        | some (a, c) => some (a + amt, c + 1) := by
  induction acc with
  | nil => simp [bumpUser, lookupUser]
  | cons e rest ih =>
    obtain ⟨v, a, c⟩ := e
    by_cases hv : v = u
    · subst hv
      simp [bumpUser, lookupUser]
    · simp only [bumpUser, lookupUser, if_neg hv, ih]

theorem lookupUser_bumpUser_other (u v : String) (amt : Int)
    (acc : List (String × Int × Int)) (hne : v ≠ u) :
    lookupUser v (bumpUser u amt acc) = lookupUser v acc := by
  have huv : ¬ u = v := fun h => hne h.symm
  induction acc with
  | nil =>
    simp [bumpUser, lookupUser, huv]
  | cons e rest ih =>
    obtain ⟨w, a, c⟩ := e
    by_cases hw : w = u
    · subst hw
      simp [bumpUser, lookupUser, huv]
    · by_cases hv : w = v
      · simp [bumpUser, lookupUser, hw, hv, huv, hne]
      · simp [bumpUser, lookupUser, hw, hv, ih]

theorem aggFrom_cons (p : Payout) (ps : List Payout)
    (acc : List (String × Int × Int)) :
    aggFrom acc (p :: ps) = aggFrom (bumpUser p.user p.amount acc) ps := rfl

theorem lookupUser_aggFrom (u : String) :
    ∀ (ps : List Payout) (acc : List (String × Int × Int)),
      lookupUser u (aggFrom acc ps)
        = match lookupUser u acc with
          | some (a, c) => some (a + userAmounts ps u, c + userCounts ps u)
          | Option.none =>
            if userCounts ps u = 0 then Option.none
            else some (userAmounts ps u, userCounts ps u) := by
  intro ps
  induction ps with
  | nil =>
    intro acc
    show lookupUser u acc = _
    cases h : lookupUser u acc with
    | none => simp [userAmounts, userCounts]
    | some v =>
      obtain ⟨a, c⟩ := v
      simp [userAmounts, userCounts]
  | cons p ps ih =>
    intro acc
    rw [aggFrom_cons, ih]
    by_cases hu : p.user = u
    · have hbe : (p.user == u) = true := beq_iff_eq.mpr hu
      have hA : userAmounts (p :: ps) u = p.amount + userAmounts ps u := by
        simp [userAmounts, List.filter_cons, hbe]
      have hC : userCounts (p :: ps) u = 1 + userCounts ps u := by
        simp [userCounts, List.filter_cons, hbe]
        omega
      rw [hu, lookupUser_bumpUser_same]
      cases h : lookupUser u acc with
      | none =>
        show some (p.amount + userAmounts ps u, 1 + userCounts ps u)
          = if userCounts (p :: ps) u = 0 then Option.none
            else some (userAmounts (p :: ps) u, userCounts (p :: ps) u)
        have hnz : ¬ userCounts (p :: ps) u = 0 := by
          have hge : (0 : Int) ≤ userCounts ps u := Int.natCast_nonneg _
          rw [hC]
          omega
        rw [if_neg hnz, hA, hC]
      | some v =>
        obtain ⟨a, c⟩ := v
        show some (a + p.amount + userAmounts ps u, c + 1 + userCounts ps u)
          = some (a + userAmounts (p :: ps) u, c + userCounts (p :: ps) u)
        rw [hA, hC]
        simp only [Option.some.injEq, Prod.mk.injEq]
        constructor <;> omega
    · have hbe : (p.user == u) = false := by
        rw [beq_eq_false_iff_ne]
        exact hu
      have hA : userAmounts (p :: ps) u = userAmounts ps u := by
        simp [userAmounts, List.filter_cons, hbe]
      have hC : userCounts (p :: ps) u = userCounts ps u := by
        simp [userCounts, List.filter_cons, hbe]
      rw [lookupUser_bumpUser_other p.user u p.amount acc
        (fun h => hu h.symm), hA, hC]

theorem aggKeys_cons (w : String) (a c : Int) (rest : List (String × Int × Int)) :
    aggKeys ((w, a, c) :: rest) = w :: aggKeys rest := rfl

theorem mem_aggKeys_bumpUser (v u : String) (amt : Int)
    (acc : List (String × Int × Int)) :
    v ∈ aggKeys (bumpUser u amt acc) ↔ v ∈ aggKeys acc ∨ v = u := by
  induction acc with
  | nil => simp [bumpUser, aggKeys]
  | cons e rest ih =>
    obtain ⟨w, a, c⟩ := e
    by_cases hw : w = u
    · subst hw
      have hb : bumpUser w amt ((w, a, c) :: rest) = (w, a + amt, c + 1) :: rest := by
        simp [bumpUser]
      rw [hb, aggKeys_cons, aggKeys_cons]
      simp only [List.mem_cons]
      tauto
    · have hb : bumpUser u amt ((w, a, c) :: rest)
          = (w, a, c) :: bumpUser u amt rest := by
        simp [bumpUser, hw]
      rw [hb, aggKeys_cons, aggKeys_cons]
      simp only [List.mem_cons, ih]
      tauto

theorem nodup_aggKeys_bumpUser (u : String) (amt : Int)
    (acc : List (String × Int × Int)) (h : (aggKeys acc).Nodup) :
    (aggKeys (bumpUser u amt acc)).Nodup := by
  induction acc with
  | nil => simp [bumpUser, aggKeys]
  | cons e rest ih =>
    obtain ⟨w, a, c⟩ := e
    rw [aggKeys_cons] at h
    obtain ⟨hw1, hw2⟩ := List.nodup_cons.mp h
    by_cases hw : w = u
    · subst hw
      have hb : bumpUser w amt ((w, a, c) :: rest) = (w, a + amt, c + 1) :: rest := by
        simp [bumpUser]
      rw [hb, aggKeys_cons]
      exact List.nodup_cons.mpr ⟨hw1, hw2⟩
    · have hb : bumpUser u amt ((w, a, c) :: rest)
          = (w, a, c) :: bumpUser u amt rest := by
        simp [bumpUser, hw]
      rw [hb, aggKeys_cons]
      refine List.nodup_cons.mpr ⟨?_, ih hw2⟩
      rw [mem_aggKeys_bumpUser]
      rintro (hmem | heq)
      · exact hw1 hmem
      · exact hw heq

theorem nodup_aggKeys_aggFrom :
    ∀ (ps : List Payout) (acc : List (String × Int × Int)),
      (aggKeys acc).Nodup → (aggKeys (aggFrom acc ps)).Nodup := by
  intro ps
  induction ps with
  | nil => intro acc h; exact h
  | cons p rest ih =>
    intro acc h
    rw [aggFrom_cons]
    exact ih _ (nodup_aggKeys_bumpUser _ _ _ h)

theorem nodup_aggKeys_aggregate (ps : List Payout) :
    (aggKeys (aggregate ps)).Nodup :=
  nodup_aggKeys_aggFrom ps [] (by simp [aggKeys])

theorem totalAmount_cons (w : String) (a c : Int)
    (l : List (String × Int × Int)) :
    totalAmount ((w, a, c) :: l) = a + totalAmount l := by
  simp [totalAmount]

theorem totalAmount_bumpUser (u : String) (amt : Int)
    (acc : List (String × Int × Int)) :
    totalAmount (bumpUser u amt acc) = totalAmount acc + amt := by
  induction acc with
  | nil => simp [bumpUser, totalAmount]
  | cons e rest ih =>
    obtain ⟨w, a, c⟩ := e
    by_cases hw : w = u
    · subst hw
      have hb : bumpUser w amt ((w, a, c) :: rest) = (w, a + amt, c + 1) :: rest := by
        simp [bumpUser]
      rw [hb, totalAmount_cons, totalAmount_cons]
      omega
    · have hb : bumpUser u amt ((w, a, c) :: rest)
          = (w, a, c) :: bumpUser u amt rest := by
        simp [bumpUser, hw]
      rw [hb, totalAmount_cons, totalAmount_cons, ih]
      omega

theorem totalAmount_aggFrom :
    ∀ (ps : List Payout) (acc : List (String × Int × Int)),
      totalAmount (aggFrom acc ps)
        = totalAmount acc + (ps.map Payout.amount).sum := by
  intro ps
  induction ps with
  | nil => intro acc; simp [aggFrom]
  | cons p rest ih =>
    intro acc
    rw [aggFrom_cons, ih, totalAmount_bumpUser]
    rw [List.map_cons, List.sum_cons]
    omega

theorem totalAmount_aggregate (ps : List Payout) :
    totalAmount (aggregate ps) = (ps.map Payout.amount).sum := by
  have h := totalAmount_aggFrom ps []
  rw [show totalAmount [] = 0 from rfl] at h
  rw [show aggregate ps = aggFrom [] ps from rfl, h]
  omega

theorem lookupUser_eq_none_iff (u : String)
    (l : List (String × Int × Int)) :
    lookupUser u l = Option.none ↔ u ∉ aggKeys l := by
  induction l with
  | nil => simp [lookupUser, aggKeys]
  | cons e rest ih =>
    obtain ⟨w, a, c⟩ := e
    rw [aggKeys_cons]
    by_cases hw : w = u
    · subst hw
      simp [lookupUser]
    · have huw : ¬ u = w := fun h => hw h.symm
      simp [lookupUser, hw, ih, List.mem_cons, huw]

theorem filter_key_aggKeys_not_mem (u : String)
    (l : List (String × Int × Int)) (h : u ∉ aggKeys l) :
    l.filter (fun e => e.1 == u) = [] := by
  rw [List.filter_eq_nil_iff]
  intro e he hcon
  rw [beq_iff_eq] at hcon
  exact h (hcon ▸ List.mem_map_of_mem Prod.fst he)

theorem filter_key_eq_lookup (u : String) :
    ∀ (l : List (String × Int × Int)), (aggKeys l).Nodup →
      l.filter (fun e => e.1 == u)
        = match lookupUser u l with
          | Option.none => []
          | some (a, c) => [(u, a, c)] := by
  intro l
  induction l with
  | nil => intro _; rfl
  | cons e rest ih =>
    intro hnd
    obtain ⟨w, a, c⟩ := e
    rw [aggKeys_cons] at hnd
    obtain ⟨hw1, hw2⟩ := List.nodup_cons.mp hnd
    by_cases hw : w = u
    · subst hw
      have hfil : rest.filter (fun e => e.1 == w) = [] :=
        filter_key_aggKeys_not_mem w rest hw1
      rw [List.filter_cons]
      have hcond : (((w, a, c) : String × Int × Int).1 == w) = true :=
        beq_iff_eq.mpr rfl
      rw [hcond]
      have hlk : lookupUser w ((w, a, c) :: rest) = some (a, c) := by
        simp [lookupUser]
      rw [hlk, if_pos rfl, hfil]
    · rw [List.filter_cons]
      have hcond : (((w, a, c) : String × Int × Int).1 == u) = false := by
        rw [beq_eq_false_iff_ne]
        exact hw
      rw [hcond]
      have hlk : lookupUser u ((w, a, c) :: rest) = lookupUser u rest := by
        simp [lookupUser, hw]
      rw [hlk]
      simp only [Bool.false_eq_true, if_false]
      exact ih hw2

/- ## Transaction create, summary fold and payout-link lemmas -/

theorem transaction_create_fresh (txid : String) (mg : Option String)
    (ts : List Transaction) (h : ∀ t ∈ ts, t.txid ≠ txid) :
    Transaction.create txid mg ts
      = ts ++ [{ txid := txid, confirmed := false, merged_type := mg }] := by
  unfold Transaction.create
  have hany : ts.any (fun t => t.txid == txid) = false := by
    rw [List.any_eq_false]
    intro t ht hcon
    exact h t ht (beq_iff_eq.mp hcon)
  rw [hany]
  simp

theorem transaction_create_present (txid : String) (mg : Option String)
    (ts : List Transaction) (h : ts.any (fun t => t.txid == txid) = true) :
    Transaction.create txid mg ts = ts := by
  unfold Transaction.create
  rw [h]
  simp

theorem transaction_create_mem (txid : String) (mg : Option String)
    (ts : List Transaction) :
    ∃ t ∈ Transaction.create txid mg ts, t.txid = txid := by
  unfold Transaction.create
  by_cases h : ts.any (fun t => t.txid == txid) = true
  · rw [h]
    simp only [if_pos rfl]
    obtain ⟨t, ht, hbe⟩ := List.any_eq_true.mp h
    exact ⟨t, ht, beq_iff_eq.mp hbe⟩
  · have h2 : ts.any (fun t => t.txid == txid) = false := Bool.not_eq_true _ ▸ h
    rw [h2]
    simp only [Bool.false_eq_true, if_false]
    exact ⟨_, List.mem_append_right _ (List.mem_cons_self _ _), rfl⟩

theorem summary_create_present (proof u : String) (a c : Int)
    (rows : List TransactionSummary)
    (h : rows.any (fun r => r.transaction_id == proof && r.user == u) = true) :
    TransactionSummary.create proof u a c rows = rows := by
  unfold TransactionSummary.create
  rw [h]
  simp

theorem summary_create_fresh (proof u : String) (a c : Int)
    (rows : List TransactionSummary)
    (h : rows.any (fun r => r.transaction_id == proof && r.user == u) = false) :
    TransactionSummary.create proof u a c rows
      = rows ++ [mkSummaryRow proof (u, a, c)] := by
  unfold TransactionSummary.create mkSummaryRow
  rw [h]
  simp

theorem summary_create_superset (proof u : String) (a c : Int)
    (rows : List TransactionSummary) (r : TransactionSummary) (h : r ∈ rows) :
    r ∈ TransactionSummary.create proof u a c rows := by
  unfold TransactionSummary.create
  by_cases hc : rows.any (fun r => r.transaction_id == proof && r.user == u) = true
  · rw [hc]
    simpa using h
  · have hc2 : rows.any (fun r => r.transaction_id == proof && r.user == u)
        = false := Bool.eq_false_iff.mpr hc
    rw [hc2]
    simp only [Bool.false_eq_true, if_false]
    exact List.mem_append_left _ h

theorem summary_create_mem (proof u : String) (a c : Int)
    (rows : List TransactionSummary) :
    ∃ r ∈ TransactionSummary.create proof u a c rows,
      r.transaction_id = proof ∧ r.user = u := by
  unfold TransactionSummary.create
  by_cases hc : rows.any (fun r => r.transaction_id == proof && r.user == u) = true
  · rw [hc]
    simp only [if_pos rfl]
    obtain ⟨r, hr, hbe⟩ := List.any_eq_true.mp hc
    rw [Bool.and_eq_true, beq_iff_eq, beq_iff_eq] at hbe
    exact ⟨r, hr, hbe⟩
  · have hc2 : rows.any (fun r => r.transaction_id == proof && r.user == u)
        = false := Bool.eq_false_iff.mpr hc
    rw [hc2]
    simp only [Bool.false_eq_true, if_false]
    exact ⟨_, List.mem_append_right _ (List.mem_cons_self _ _), rfl, rfl⟩

theorem sumFold_cons (proof : String) (e : String × Int × Int)
    (agg : List (String × Int × Int)) (rows : List TransactionSummary) :
    sumFold proof (e :: agg) rows
      = sumFold proof agg (TransactionSummary.create proof e.1 e.2.1 e.2.2 rows)
    := rfl

theorem sumFold_superset (proof : String) :
    ∀ (agg : List (String × Int × Int)) (rows : List TransactionSummary)
      (r : TransactionSummary), r ∈ rows → r ∈ sumFold proof agg rows := by
  intro agg
  induction agg with
  | nil => intro rows r h; exact h
  | cons e rest ih =>
    intro rows r h
    rw [sumFold_cons]
    exact ih _ r (summary_create_superset _ _ _ _ _ r h)

theorem sumFold_mem_after (proof : String) :
    ∀ (agg : List (String × Int × Int)) (rows : List TransactionSummary),
      ∀ e ∈ agg, ∃ r ∈ sumFold proof agg rows,
        r.transaction_id = proof ∧ r.user = e.1 := by
  intro agg
  induction agg with
  | nil => intro rows e he; exact absurd he (List.not_mem_nil e)
  | cons f rest ih =>
    intro rows e he
    rw [sumFold_cons]
    rcases List.mem_cons.mp he with heq | hrest
    · obtain ⟨r, hr, hprops⟩ := summary_create_mem proof f.1 f.2.1 f.2.2 rows
      exact ⟨r, sumFold_superset proof rest _ r hr, heq ▸ hprops⟩
    · exact ih _ e hrest

theorem sumFold_noop (proof : String) :
    ∀ (agg : List (String × Int × Int)) (rows : List TransactionSummary),
      (∀ e ∈ agg, ∃ r ∈ rows, r.transaction_id = proof ∧ r.user = e.1) →
      sumFold proof agg rows = rows := by
  intro agg
  induction agg with
  | nil => intro rows _; rfl
  | cons e rest ih =>
    intro rows hpres
    obtain ⟨r, hr, h1, h2⟩ := hpres e (List.mem_cons_self _ _)
    have hany : rows.any (fun x =>
        x.transaction_id == proof && x.user == e.1) = true := by
      rw [List.any_eq_true]
      refine ⟨r, hr, ?_⟩
      rw [Bool.and_eq_true, beq_iff_eq, beq_iff_eq]
      exact ⟨h1, h2⟩
    rw [sumFold_cons, summary_create_present _ _ _ _ _ hany]
    exact ih rows (fun f hf => hpres f (List.mem_cons_of_mem _ hf))

theorem sumFold_fresh (proof : String) :
    ∀ (agg : List (String × Int × Int)) (rows : List TransactionSummary),
      (aggKeys agg).Nodup →
      (∀ r ∈ rows, r.transaction_id = proof → r.user ∉ aggKeys agg) →
      sumFold proof agg rows = rows ++ agg.map (mkSummaryRow proof) := by
  intro agg
  induction agg with
  | nil => intro rows _ _; simp [sumFold]
  | cons e rest ih =>
    intro rows hnd hfresh
    obtain ⟨u, a, c⟩ := e
    rw [aggKeys_cons] at hnd
    obtain ⟨hu1, hu2⟩ := List.nodup_cons.mp hnd
    have hany : rows.any (fun r =>
        r.transaction_id == proof && r.user == u) = false := by
      rw [List.any_eq_false]
      intro r hr hcon
      rw [Bool.and_eq_true, beq_iff_eq, beq_iff_eq] at hcon
      have hmem : r.user ∈ aggKeys ((u, a, c) :: rest) := by
        rw [aggKeys_cons, hcon.2]
        exact List.mem_cons_self _ _
      exact hfresh r hr hcon.1 hmem
    have hfresh2 : ∀ r ∈ rows ++ [mkSummaryRow proof (u, a, c)],
        r.transaction_id = proof → r.user ∉ aggKeys rest := by
      intro r hr htid
      rcases List.mem_append.mp hr with hold | hnew
      · intro hcon
        have hmem2 : r.user ∈ aggKeys ((u, a, c) :: rest) := by
          rw [aggKeys_cons]
          exact List.mem_cons_of_mem _ hcon
        exact hfresh r hold htid hmem2
      · have hr2 : r = mkSummaryRow proof (u, a, c) :=
          List.mem_singleton.mp hnew
        rw [hr2]
        exact hu1
    rw [sumFold_cons]
    dsimp only
    rw [summary_create_fresh _ _ _ _ _ hany, ih _ hu2 hfresh2]
    rw [List.map_cons, List.append_assoc]
    rfl

theorem linkRow_id (pl : List Int) (proof : String) (p : Payout) :
    (linkRow pl proof p).id = p.id := by
  unfold linkRow
  split <;> rfl

theorem linkRow_user (pl : List Int) (proof : String) (p : Payout) :
    (linkRow pl proof p).user = p.user := by
  unfold linkRow
  split <;> rfl

theorem linkRow_amount (pl : List Int) (proof : String) (p : Payout) :
    (linkRow pl proof p).amount = p.amount := by
  unfold linkRow
  split <;> rfl

theorem linkRow_idem (pl : List Int) (proof : String) (p : Payout) :
    linkRow pl proof (linkRow pl proof p) = linkRow pl proof p := by
  unfold linkRow
  by_cases hc : pl.contains p.id = true
  · rw [if_pos hc]
    dsimp only
    rw [if_pos hc]
  · rw [if_neg hc, if_neg hc]

theorem map_linkRow_idem (pl : List Int) (proof : String) (l : List Payout) :
    (l.map (linkRow pl proof)).map (linkRow pl proof) = l.map (linkRow pl proof)
    := by
  rw [List.map_map]
  exact List.map_congr_left (fun p _ => linkRow_idem pl proof p)

theorem txSuccessPath_payouts (proof : String) (mg : Option String)
    (pl : List Int) (s : DBState) :
    (txSuccessPath proof mg pl s).payouts = s.payouts.map (linkRow pl proof) := by
  show (if !pl.isEmpty then s.payouts.map (linkRow pl proof) else s.payouts) = _
  by_cases hemp : pl.isEmpty = true
  · rw [hemp]
    have hnil : pl = [] := List.isEmpty_eq_true.mp hemp
    subst hnil
    have : s.payouts.map (linkRow [] proof) = s.payouts.map id :=
      List.map_congr_left (fun p _ => by unfold linkRow; simp [List.contains])
    rw [show (!true) = false from rfl]
    simp only [Bool.false_eq_true, if_false]
    rw [this, List.map_id]
  · have hemp2 : pl.isEmpty = false := Bool.eq_false_iff.mpr hemp
    rw [hemp2]
    rfl

theorem filter_contains_map_linkRow (pl : List Int) (proof : String)
    (l : List Payout) :
    (l.map (linkRow pl proof)).filter (fun p => pl.contains p.id)
      = (l.filter (fun p => pl.contains p.id)).map (linkRow pl proof) := by
  induction l with
  | nil => rfl
  | cons p rest ih =>
    rw [List.map_cons, List.filter_cons, List.filter_cons, linkRow_id]
    by_cases hc : pl.contains p.id = true
    · rw [hc, if_pos rfl, if_pos rfl, List.map_cons, ih]
    · have hc2 : pl.contains p.id = false := Bool.eq_false_iff.mpr hc
      rw [hc2, if_neg (by simp), if_neg (by simp), ih]

theorem aggFrom_map_linkRow (pl : List Int) (proof : String) :
    ∀ (l : List Payout) (acc : List (String × Int × Int)),
      aggFrom acc (l.map (linkRow pl proof)) = aggFrom acc l := by
  intro l
  induction l with
  | nil => intro acc; rfl
  | cons p rest ih =>
    intro acc
    rw [List.map_cons, aggFrom_cons, aggFrom_cons, linkRow_user, linkRow_amount]
    exact ih _

theorem aggregate_map_linkRow (pl : List Int) (proof : String)
    (l : List Payout) :
    aggregate (l.map (linkRow pl proof)) = aggregate l :=
  aggFrom_map_linkRow pl proof l []

theorem validateUT_success (proof : String) (rs : Option PyVal)
    (mg : Option String) (pl bl : List Int) (hlen : proof.length = 64) :
    validateUT { coin_txid := some proof, reset := rs, merged := mg,
                 pids := some (.list (pl.map PyVal.int)),
                 bids := some (.list (bl.map PyVal.int)) }
      = .ok (.success proof pl bl) := by
  unfold validateUT validateHead validateIdList
  simp [hlen, map_int_all_isinstance, map_pyToInt_map_int, map_pyToInt_comp_int]

theorem update_transactions_success_eq (proof : String) (rs : Option PyVal)
    (mg : Option String) (pl bl : List Int) (s : DBState)
    (hlen : proof.length = 64) :
    update_transactions
        { coin_txid := some proof, reset := rs, merged := mg,
          pids := some (.list (pl.map PyVal.int)),
          bids := some (.list (bl.map PyVal.int)) } s
      = (.ok .boolTrue, txSuccessPath proof mg pl s) := by
  unfold update_transactions
  rw [validateUT_success proof rs mg pl bl hlen]

theorem filter_user_map_mkRow (proof u : String)
    (agg : List (String × Int × Int)) :
    ((agg.map (mkSummaryRow proof)).filter
        (fun r => r.transaction_id == proof && r.user == u))
      = (agg.filter (fun e => e.1 == u)).map (mkSummaryRow proof) := by
  induction agg with
  | nil => rfl
  | cons e rest ih =>
    rw [List.map_cons, List.filter_cons, List.filter_cons]
    have hcond : ((mkSummaryRow proof e).transaction_id == proof
        && ((mkSummaryRow proof e).user == u)) = (e.1 == u) := by
      simp [mkSummaryRow]
    rw [hcond]
    by_cases hc : (e.1 == u) = true
    · rw [hc, if_pos rfl, if_pos rfl, List.map_cons, ih]
    · have hc2 : (e.1 == u) = false := Bool.eq_false_iff.mpr hc
      rw [hc2, if_neg (by simp), if_neg (by simp), ih]

theorem filter_linked_map_linkRow (pl : List Int) (proof : String)
    (l : List Payout) (h : ∀ p ∈ l, p.transaction_id ≠ some proof) :
    (l.map (linkRow pl proof)).filter (fun p => p.transaction_id == some proof)
      = (l.filter (fun p => pl.contains p.id)).map (linkRow pl proof) := by
  induction l with
  | nil => rfl
  | cons p rest ih =>
    have hrest : ∀ q ∈ rest, q.transaction_id ≠ some proof :=
      fun q hq => h q (List.mem_cons_of_mem _ hq)
    rw [List.map_cons, List.filter_cons, List.filter_cons]
    by_cases hc : pl.contains p.id = true
    · have hcond : ((linkRow pl proof p).transaction_id == some proof) = true := by
        unfold linkRow
        rw [if_pos hc]
        dsimp only
        exact beq_iff_eq.mpr rfl
      rw [hcond, hc, if_pos rfl, if_pos rfl, List.map_cons, ih hrest]
    · have hcp : pl.contains p.id = false := Bool.eq_false_iff.mpr hc
      have hcond : ((linkRow pl proof p).transaction_id == some proof) = false := by
        unfold linkRow
        rw [hcp]
        simp only [Bool.false_eq_true, if_false]
        rw [beq_eq_false_iff_ne]
        exact h p (List.mem_cons_self _ _)
      rw [hcond, hcp, if_neg (by simp), if_neg (by simp), ih hrest]

/-- C1: committing payouts with a fresh 64-character proof creates exactly
one Transaction row keyed by that proof, at most one TransactionSummary row
per (proof, user) pair, and the identical second call returns the same True
response and leaves the state exactly as after the first call: the retry is
a no-op, not a duplicate. -/
theorem update_transactions_idempotent (proof : String) (rs : Option PyVal)
    (mg : Option String) (pl bl : List Int) (s0 : DBState)
    (hlen : proof.length = 64)
    (hTx : ∀ t ∈ s0.transactions, t.txid ≠ proof)
    (hSum : ∀ r ∈ s0.transaction_summaries, r.transaction_id ≠ proof) :
    update_transactions
        { coin_txid := some proof, reset := rs, merged := mg,
          pids := some (.list (pl.map PyVal.int)),
          bids := some (.list (bl.map PyVal.int)) } s0
      = (.ok .boolTrue, txSuccessPath proof mg pl s0) ∧
    (((txSuccessPath proof mg pl s0).transactions.filter
        (fun t => t.txid == proof)).length = 1) ∧
    (∀ u : String,
       ((txSuccessPath proof mg pl s0).transaction_summaries.filter
          (fun r => r.transaction_id == proof && r.user == u)).length ≤ 1) ∧
    update_transactions
        { coin_txid := some proof, reset := rs, merged := mg,
          pids := some (.list (pl.map PyVal.int)),
          bids := some (.list (bl.map PyVal.int)) }
        (txSuccessPath proof mg pl s0)
      = (.ok .boolTrue, txSuccessPath proof mg pl s0) := by
  have hAtx : (txSuccessPath proof mg pl s0).transactions
      = Transaction.create proof mg s0.transactions := rfl
  have hApay : (txSuccessPath proof mg pl s0).payouts
      = s0.payouts.map (linkRow pl proof) := txSuccessPath_payouts proof mg pl s0
  have hAsum : (txSuccessPath proof mg pl s0).transaction_summaries
      = sumFold proof
          (aggregate (s0.payouts.filter (fun p => pl.contains p.id)))
          s0.transaction_summaries := rfl
  have hsumEq : (txSuccessPath proof mg pl s0).transaction_summaries
      = s0.transaction_summaries
        ++ (aggregate (s0.payouts.filter (fun p =>
              pl.contains p.id))).map (mkSummaryRow proof) := by
    rw [hAsum]
    exact sumFold_fresh proof _ s0.transaction_summaries
      (nodup_aggKeys_aggregate _)
      (fun r hr ht => absurd ht (hSum r hr))
  refine ⟨update_transactions_success_eq proof rs mg pl bl s0 hlen, ?_, ?_, ?_⟩
  · rw [hAtx, transaction_create_fresh proof mg s0.transactions hTx,
      List.filter_append]
    have hleft : s0.transactions.filter (fun t => t.txid == proof) = [] := by
      rw [List.filter_eq_nil_iff]
      intro t ht hcon
      exact hTx t ht (beq_iff_eq.mp hcon)
    rw [hleft]
    simp
  · intro u
    rw [hsumEq, List.filter_append]
    have hleft : s0.transaction_summaries.filter
        (fun r => r.transaction_id == proof && r.user == u) = [] := by
      rw [List.filter_eq_nil_iff]
      intro r hr hcon
      rw [Bool.and_eq_true, beq_iff_eq, beq_iff_eq] at hcon
      exact hSum r hr hcon.1
    rw [hleft, List.nil_append, filter_user_map_mkRow, List.length_map,
      filter_key_eq_lookup u _ (nodup_aggKeys_aggregate _)]
    cases hlk : lookupUser u (aggregate (s0.payouts.filter (fun p =>
        pl.contains p.id))) with
    | none => simp
    | some v =>
      obtain ⟨a, c⟩ := v
      simp
  · rw [update_transactions_success_eq proof rs mg pl bl
      (txSuccessPath proof mg pl s0) hlen]
    have htx2 : Transaction.create proof mg
        (txSuccessPath proof mg pl s0).transactions
        = (txSuccessPath proof mg pl s0).transactions := by
      apply transaction_create_present
      rw [List.any_eq_true]
      obtain ⟨t, ht, htt⟩ := transaction_create_mem proof mg s0.transactions
      exact ⟨t, by rw [hAtx]; exact ht, beq_iff_eq.mpr htt⟩
    have hagg : aggregate ((txSuccessPath proof mg pl s0).payouts.filter
          (fun p => pl.contains p.id))
        = aggregate (s0.payouts.filter (fun p => pl.contains p.id)) := by
      rw [hApay, filter_contains_map_linkRow, aggregate_map_linkRow]
    have hsum2 : sumFold proof
        (aggregate ((txSuccessPath proof mg pl s0).payouts.filter
          (fun p => pl.contains p.id)))
        (txSuccessPath proof mg pl s0).transaction_summaries
        = (txSuccessPath proof mg pl s0).transaction_summaries := by
      rw [hagg]
      apply sumFold_noop
      intro e he
      exact sumFold_mem_after proof
        (aggregate (s0.payouts.filter (fun p => pl.contains p.id)))
        s0.transaction_summaries e he
    have hpay2 : (if !pl.isEmpty then
          (txSuccessPath proof mg pl s0).payouts.map (linkRow pl proof)
        else (txSuccessPath proof mg pl s0).payouts)
        = (txSuccessPath proof mg pl s0).payouts := by
      by_cases hemp : pl.isEmpty = true
      · rw [hemp]
        rfl
      · rw [Bool.eq_false_iff.mpr hemp]
        rw [hApay, map_linkRow_idem]
        simp
    have hBA : txSuccessPath proof mg pl (txSuccessPath proof mg pl s0)
        = txSuccessPath proof mg pl s0 := by
      calc txSuccessPath proof mg pl (txSuccessPath proof mg pl s0)
          = { txSuccessPath proof mg pl s0 with
              transactions := Transaction.create proof mg
                (txSuccessPath proof mg pl s0).transactions,
              transaction_summaries := sumFold proof
                (aggregate ((txSuccessPath proof mg pl s0).payouts.filter
                  (fun p => pl.contains p.id)))
                (txSuccessPath proof mg pl s0).transaction_summaries,
              payouts := if !pl.isEmpty then
                  (txSuccessPath proof mg pl s0).payouts.map (linkRow pl proof)
                else (txSuccessPath proof mg pl s0).payouts } := rfl
        _ = txSuccessPath proof mg pl s0 := by rw [htx2, hsum2, hpay2]
    rw [hBA]

/-- C5: on the success path the TransactionSummary rows written for the proof
are exactly one row per user owning a referenced payout, whose amount is the
sum of that user's referenced payout amounts and whose count is the number of
those payouts; and the total of the proof's summary amounts equals the total
amount of the payouts linked to the proof. -/
theorem update_transactions_aggregation (proof : String) (rs : Option PyVal)
    (mg : Option String) (pl bl : List Int) (s0 : DBState)
    (hlen : proof.length = 64)
    (hSum : ∀ r ∈ s0.transaction_summaries, r.transaction_id ≠ proof)
    (hPay : ∀ p ∈ s0.payouts, p.transaction_id ≠ some proof) :
    (∀ u : String,
       ((update_transactions
           { coin_txid := some proof, reset := rs, merged := mg,
             pids := some (.list (pl.map PyVal.int)),
             bids := some (.list (bl.map PyVal.int)) }
           s0).2).transaction_summaries.filter
          (fun r => r.transaction_id == proof && r.user == u)
        = (if userCounts (s0.payouts.filter (fun p => pl.contains p.id)) u = 0
           then []
           else [mkSummaryRow proof (u,
              userAmounts (s0.payouts.filter (fun p => pl.contains p.id)) u,
              userCounts (s0.payouts.filter (fun p => pl.contains p.id)) u)])) ∧
    (((((update_transactions
           { coin_txid := some proof, reset := rs, merged := mg,
             pids := some (.list (pl.map PyVal.int)),
             bids := some (.list (bl.map PyVal.int)) }
           s0).2).transaction_summaries.filter
          (fun r => r.transaction_id == proof)).map
        TransactionSummary.amount).sum
      = ((((update_transactions
           { coin_txid := some proof, reset := rs, merged := mg,
             pids := some (.list (pl.map PyVal.int)),
             bids := some (.list (bl.map PyVal.int)) }
           s0).2).payouts.filter
          (fun p => p.transaction_id == some proof)).map Payout.amount).sum) := by
  have h0 : (update_transactions
      { coin_txid := some proof, reset := rs, merged := mg,
        pids := some (.list (pl.map PyVal.int)),
        bids := some (.list (bl.map PyVal.int)) } s0).2
      = txSuccessPath proof mg pl s0 := by
    rw [update_transactions_success_eq proof rs mg pl bl s0 hlen]
  have hsumEq : (txSuccessPath proof mg pl s0).transaction_summaries
      = s0.transaction_summaries
        ++ (aggregate (s0.payouts.filter (fun p =>
              pl.contains p.id))).map (mkSummaryRow proof) :=
    sumFold_fresh proof _ s0.transaction_summaries
      (nodup_aggKeys_aggregate _)
      (fun r hr ht => absurd ht (hSum r hr))
  constructor
  · intro u
    rw [h0, hsumEq, List.filter_append]
    have hleft : s0.transaction_summaries.filter
        (fun r => r.transaction_id == proof && r.user == u) = [] := by
      rw [List.filter_eq_nil_iff]
      intro r hr hcon
      rw [Bool.and_eq_true, beq_iff_eq, beq_iff_eq] at hcon
      exact hSum r hr hcon.1
    rw [hleft, List.nil_append, filter_user_map_mkRow,
      filter_key_eq_lookup u _ (nodup_aggKeys_aggregate _)]
    have hlk : lookupUser u
        (aggregate (s0.payouts.filter (fun p => pl.contains p.id)))
        = (if userCounts (s0.payouts.filter (fun p => pl.contains p.id)) u = 0
           then Option.none
           else some (userAmounts (s0.payouts.filter
                  (fun p => pl.contains p.id)) u,
                userCounts (s0.payouts.filter (fun p => pl.contains p.id)) u))
        := lookupUser_aggFrom u (s0.payouts.filter (fun p => pl.contains p.id)) []
    rw [hlk]
    by_cases hz : userCounts (s0.payouts.filter (fun p => pl.contains p.id)) u
        = 0
    · rw [if_pos hz, if_pos hz]
      rfl
    · rw [if_neg hz, if_neg hz]
      rfl
  · rw [h0, hsumEq, List.filter_append]
    have hleft2 : s0.transaction_summaries.filter
        (fun r => r.transaction_id == proof) = [] := by
      rw [List.filter_eq_nil_iff]
      intro r hr hcon
      exact hSum r hr (beq_iff_eq.mp hcon)
    rw [hleft2, List.nil_append]
    have hself : ((aggregate (s0.payouts.filter (fun p =>
          pl.contains p.id))).map (mkSummaryRow proof)).filter
          (fun r => r.transaction_id == proof)
        = (aggregate (s0.payouts.filter (fun p =>
            pl.contains p.id))).map (mkSummaryRow proof) := by
      rw [List.filter_eq_self]
      intro r hr
      obtain ⟨e, _, he⟩ := List.mem_map.mp hr
      rw [← he]
      exact beq_iff_eq.mpr rfl
    rw [hself]
    have hmapa : ((aggregate (s0.payouts.filter (fun p =>
          pl.contains p.id))).map (mkSummaryRow proof)).map
          TransactionSummary.amount
        = (aggregate (s0.payouts.filter (fun p =>
            pl.contains p.id))).map (fun e => e.2.1) := by
      rw [List.map_map]
      exact List.map_congr_left (fun e _ => rfl)
    rw [hmapa]
    rw [show ((aggregate (s0.payouts.filter (fun p =>
          pl.contains p.id))).map (fun e => e.2.1)).sum
        = ((s0.payouts.filter (fun p => pl.contains p.id)).map
            Payout.amount).sum
      from totalAmount_aggregate _]
    rw [txSuccessPath_payouts, filter_linked_map_linkRow pl proof s0.payouts hPay]
    have hamt : ((s0.payouts.filter (fun p => pl.contains p.id)).map
        (linkRow pl proof)).map Payout.amount
        = (s0.payouts.filter (fun p => pl.contains p.id)).map Payout.amount := by
      rw [List.map_map]
      exact List.map_congr_left (fun p _ => linkRow_amount pl proof p)
    rw [hamt]

/- ## Witnesses: the claim theorems applied at concrete inputs -/

theorem update_transactions_idempotent_witness :
    ("aaaaaaaaaaaaaaaaaaaaaaaaaaaaaaaaaaaaaaaaaaaaaaaaaaaaaaaaaaaaaaaa"
        : String).length = 64 ∧
    ((txSuccessPath
        "aaaaaaaaaaaaaaaaaaaaaaaaaaaaaaaaaaaaaaaaaaaaaaaaaaaaaaaaaaaaaaaa"
        Option.none [1]
        { payouts := [{ id := 1, user := "A", amount := 5, block_id := 0,
                        locked := true, merged_type := Option.none,
                        transaction_id := Option.none }],
          blocks := [], trade_requests := [], transactions := [],
          transaction_summaries := [] }).transactions.filter
      (fun t => t.txid ==
        "aaaaaaaaaaaaaaaaaaaaaaaaaaaaaaaaaaaaaaaaaaaaaaaaaaaaaaaaaaaaaaaa")).length
      = 1 :=
  ⟨by decide,
   (update_transactions_idempotent
      "aaaaaaaaaaaaaaaaaaaaaaaaaaaaaaaaaaaaaaaaaaaaaaaaaaaaaaaaaaaaaaaa"
      Option.none Option.none [1] []
      { payouts := [{ id := 1, user := "A", amount := 5, block_id := 0,
                      locked := true, merged_type := Option.none,
                      transaction_id := Option.none }],
        blocks := [], trade_requests := [], transactions := [],
        transaction_summaries := [] }
      (by decide) (by decide) (by decide)).2.1⟩

theorem update_transactions_aggregation_witness :
    ((update_transactions
        { coin_txid := some
            "aaaaaaaaaaaaaaaaaaaaaaaaaaaaaaaaaaaaaaaaaaaaaaaaaaaaaaaaaaaaaaaa",
          reset := Option.none, merged := Option.none,
          pids := some (.list (([1, 2, 3] : List Int).map PyVal.int)),
          bids := some (.list (([] : List Int).map PyVal.int)) }
        { payouts := [{ id := 1, user := "A", amount := 5, block_id := 0,
                        locked := true, merged_type := Option.none,
                        transaction_id := Option.none },
                      { id := 2, user := "A", amount := 3, block_id := 0,
                        locked := true, merged_type := Option.none,
                        transaction_id := Option.none },
                      { id := 3, user := "B", amount := 2, block_id := 0,
                        locked := true, merged_type := Option.none,
                        transaction_id := Option.none }],
          blocks := [], trade_requests := [], transactions := [],
          transaction_summaries := [] }).2).transaction_summaries.filter
      (fun r => r.transaction_id ==
          "aaaaaaaaaaaaaaaaaaaaaaaaaaaaaaaaaaaaaaaaaaaaaaaaaaaaaaaaaaaaaaaa"
        && r.user == "A")
      = [mkSummaryRow
          "aaaaaaaaaaaaaaaaaaaaaaaaaaaaaaaaaaaaaaaaaaaaaaaaaaaaaaaaaaaaaaaa"
          ("A", 8, 2)] ∧
    ((update_transactions
        { coin_txid := some
            "aaaaaaaaaaaaaaaaaaaaaaaaaaaaaaaaaaaaaaaaaaaaaaaaaaaaaaaaaaaaaaaa",
          reset := Option.none, merged := Option.none,
          pids := some (.list (([1, 2, 3] : List Int).map PyVal.int)),
          bids := some (.list (([] : List Int).map PyVal.int)) }
        { payouts := [{ id := 1, user := "A", amount := 5, block_id := 0,
                        locked := true, merged_type := Option.none,
                        transaction_id := Option.none },
                      { id := 2, user := "A", amount := 3, block_id := 0,
                        locked := true, merged_type := Option.none,
                        transaction_id := Option.none },
                      { id := 3, user := "B", amount := 2, block_id := 0,
                        locked := true, merged_type := Option.none,
                        transaction_id := Option.none }],
          blocks := [], trade_requests := [], transactions := [],
          transaction_summaries := [] }).2).transaction_summaries.filter
      (fun r => r.transaction_id ==
          "aaaaaaaaaaaaaaaaaaaaaaaaaaaaaaaaaaaaaaaaaaaaaaaaaaaaaaaaaaaaaaaa"
        && r.user == "B")
      = [mkSummaryRow
          "aaaaaaaaaaaaaaaaaaaaaaaaaaaaaaaaaaaaaaaaaaaaaaaaaaaaaaaaaaaaaaaa"
          ("B", 2, 1)] := by
  have h := update_transactions_aggregation
    "aaaaaaaaaaaaaaaaaaaaaaaaaaaaaaaaaaaaaaaaaaaaaaaaaaaaaaaaaaaaaaaa"
    Option.none Option.none [1, 2, 3] []
    { payouts := [{ id := 1, user := "A", amount := 5, block_id := 0,
                    locked := true, merged_type := Option.none,
                    transaction_id := Option.none },
                  { id := 2, user := "A", amount := 3, block_id := 0,
                    locked := true, merged_type := Option.none,
                    transaction_id := Option.none },
                  { id := 3, user := "B", amount := 2, block_id := 0,
                    locked := true, merged_type := Option.none,
                    transaction_id := Option.none }],
      blocks := [], trade_requests := [], transactions := [],
      transaction_summaries := [] }
    (by decide) (by decide) (by decide)
  constructor
  · rw [h.1 "A"]
    decide
  · rw [h.1 "B"]
    decide

theorem get_payouts_eligibility_witness :
    ((([{ id := 1, user := "A", amount := 5, block_id := 7, locked := false,
          merged_type := Option.none, transaction_id := Option.none }]
        : List Payout).map Payout.id).Nodup) ∧
    ("A", (5 : Int), (1 : Int)) ∉
      (get_payouts Option.none
        { payouts := [{ id := 1, user := "A", amount := 5, block_id := 7,
                        locked := false, merged_type := Option.none,
                        transaction_id := Option.none }],
          blocks := [], trade_requests := [], transactions := [],
          transaction_summaries := [] }).1.1 := by
  refine ⟨by decide, ?_⟩
  have h := get_payouts_eligibility Option.none
    { payouts := [{ id := 1, user := "A", amount := 5, block_id := 7,
                    locked := false, merged_type := Option.none,
                    transaction_id := Option.none }],
      blocks := [], trade_requests := [], transactions := [],
      transaction_summaries := [] }
    (by decide)
  exact h.2
    { id := 1, user := "A", amount := 5, block_id := 7, locked := false,
      merged_type := Option.none, transaction_id := Option.none }
    (by decide) (by decide)

theorem claim_wantLock_locks_returned_witness :
    (get_payouts (some { lock := true, merged := Option.none })
        { payouts := [], blocks := [], trade_requests := [], transactions := [],
          transaction_summaries := [] }).1.1 = [] ∧
    (get_payouts (some { lock := true, merged := Option.none })
        { payouts := [], blocks := [], trade_requests := [], transactions := [],
          transaction_summaries := [] }).2
      = { payouts := [], blocks := [], trade_requests := [], transactions := [],
          transaction_summaries := [] } :=
  ⟨rfl,
   ((claim_wantLock_locks_returned).1 { lock := true, merged := Option.none }
      { payouts := [], blocks := [], trade_requests := [], transactions := [],
        transaction_summaries := [] } rfl).2 rfl⟩

theorem claim_frame_only_locked_witness :
    ((get_payouts Option.none
        { payouts := [], blocks := [], trade_requests := [], transactions := [],
          transaction_summaries := [] }).2).transactions
      = ({ payouts := [], blocks := [], trade_requests := [],
            transactions := [], transaction_summaries := [] }
          : DBState).transactions ∧
    ((get_sell_requests (some true)
        { payouts := [], blocks := [], trade_requests := [], transactions := [],
          transaction_summaries := [] }).2).payouts
      = ({ payouts := [], blocks := [], trade_requests := [],
            transactions := [], transaction_summaries := [] }
          : DBState).payouts :=
  ⟨(claim_frame_only_locked.1 Option.none
      { payouts := [], blocks := [], trade_requests := [], transactions := [],
        transaction_summaries := [] }).2.2.1,
   (claim_frame_only_locked.2 (some true)
      { payouts := [], blocks := [], trade_requests := [], transactions := [],
        transaction_summaries := [] }).2.1⟩

theorem update_transactions_rejects_malformed_witness :
    update_transactions
        { coin_txid := Option.none, reset := some (.bool true),
          merged := Option.none, pids := some (.list [.str "x"]),
          bids := some (.list []) }
        { payouts := [], blocks := [], trade_requests := [], transactions := [],
          transaction_summaries := [] }
      = (.error .clientError,
         { payouts := [], blocks := [], trade_requests := [], transactions := [],
           transaction_summaries := [] }) := by
  have h := update_transactions_rejects_malformed
    { coin_txid := Option.none, reset := some (.bool true),
      merged := Option.none, pids := some (.list [.str "x"]),
      bids := some (.list []) }
    { payouts := [], blocks := [], trade_requests := [], transactions := [],
      transaction_summaries := [] }
    [.str "x"] [] rfl rfl
  exact h.1 (Or.inl ⟨.str "x", List.mem_cons_self _ _, rfl⟩)

end Simplecoin
